import Mathlib

/-!
Verification development for the Wildberries search-report daily raw sync job
(`wb_search_products_daily_raw_sync.py`).  The Python source is shallowly
embedded: JSON values become an inductive type, the retry loop becomes a
recursion over a scripted sequence of attempt outcomes (recording the backoff
sleeps it would perform), the database table becomes an association list with
upsert semantics, and the pagination loop of `main` becomes a recursion over
offsets into the list of available records.
-/

namespace WbSync

/-- JSON values as returned by `r.json()`.  Numbers are modelled as integers
(the fields relevant here, in particular `nmId`, are integral). -/
inductive Json where
  | null
  | bool (b : Bool)
  | num (n : Int)
  | str (s : String)
  | arr (elems : List Json)
  | obj (fields : List (String × Json))

/-- Python dict lookup (`k in cur` / `cur[k]`) on the field list of a JSON
object: the first binding of the key, if any.  Dicts have unique keys, so
"first" is faithful. -/
def lookupField : List (String × Json) → String → Option Json
  | [], _ => none
  | (k, v) :: rest, key => if k = key then some v else lookupField rest key

/-- Embedding of `safe_get(obj, path, default)` (source lines 21-27): walk the
key path; whenever the current value is not a dict containing the key, return
the default. -/
def safe_get : Json → List String → Json → Json
  | cur, [], _ => cur
  | cur, k :: rest, dflt =>
    match cur with
    | .obj fs =>
      match lookupField fs k with
      | some v => safe_get v rest dflt
      | none => dflt
    | _ => dflt

/-- Specification-side optional path lookup: `some` of the value at the path
when every step is a dict containing the key, `none` otherwise.  Used to state
what `safe_get` computes. -/
def getPath : Json → List String → Option Json
  | cur, [] => some cur
  | cur, k :: rest =>
    match cur with
    | .obj fs =>
      match lookupField fs k with
      | some v => getPath v rest
      | none => none
    | _ => none

/-- Embedding of the extraction at source lines 97-99:
`products = safe_get(data, ("data", "products"), default=[])` followed by
`return products if isinstance(products, list) else []`. -/
def extract_products (data : Json) : List Json :=
  match safe_get data ["data", "products"] (Json.arr []) with
  | .arr xs => xs
  | _ => []

/-- Embedding of `is_retryable_http` (source lines 30-31):
`code in (429, 500, 502, 503, 504)`. -/
def is_retryable_http (code : Nat) : Bool :=
  code == 429 || code == 500 || code == 502 || code == 503 || code == 504

/-- Embedding of the target-date computation of `main` (source line 174):
`[(today - dt.timedelta(days=i)) for i in range(1, days_back + 1)]`.
Dates are modelled as integers (day ordinals); `today` abstracts the value of
`msk_today()`. -/
def target_dates (today : Int) (days_back : Nat) : List Int :=
  (List.range' 1 days_back).map (fun (i : Nat) => today - (i : Int))

/-- Outcome of one `session.post` attempt inside `fetch_page_with_retry`:
either a network-level failure (`requests.exceptions.Timeout` /
`ConnectionError`, source line 72) or an HTTP response with a status code,
a parsed JSON body and a raw text. -/
inductive AttemptResult where
  | netError (msg : String)
  | http (status : Nat) (body : Json) (text : String)

/-- One scripted attempt: the outcome `session.post` would produce, together
with the values the two `random.uniform` draws would return on this attempt
(`u1` for `random.uniform(0, 1.0)`, `u15` for `random.uniform(0, 1.5)`;
only one of them is consumed, depending on the branch taken). -/
structure ScriptedAttempt where
  result : AttemptResult
  u1 : Rat
  u15 : Rat

/-- Result of `fetch_page_with_retry`: the returned product list, the fatal
`RuntimeError` on a non-retryable HTTP status (source line 95), or the
`RuntimeError` after exhausting all retries (source line 101), carrying the
last observed failure message. -/
inductive FetchOutcome where
  | success (products : List Json)
  | fatalHttp (status : Nat) (text : String)
  | exhausted (lastErr : Option String)

/-- Trace of one run of `fetch_page_with_retry`: the final outcome, the list
of `(attempt, duration)` pairs passed to `time.sleep` in order, and the number
of `session.post` attempts issued. -/
structure FetchTrace where
  outcome : FetchOutcome
  sleeps : List (Nat × Rat)
  attemptsMade : Nat

/-- Prepend one failed attempt (which slept `sleep_s`) to a trace. -/
def FetchTrace.step (attempt : Nat) (sleep_s : Rat) (rest : FetchTrace) :
    FetchTrace :=
  ⟨rest.outcome, (attempt, sleep_s) :: rest.sleeps, rest.attemptsMade + 1⟩

/-- The `last_err` message recorded for a failed attempt: source line 73
(`"Network/Timeout: ..."`) and source line 83 (`"HTTP code: text[:200]"`). -/
def errMsgOf : AttemptResult → String
  | .netError m => "Network/Timeout: " ++ m
  | .http code _ text => "HTTP " ++ toString code ++ ": " ++ text.take 200

/-- Embedding of the `for attempt in range(1, max_retries + 1)` loop of
`fetch_page_with_retry` (source lines 69-101), driven by a scripted sequence
of attempt outcomes.  `fuel` is the number of loop iterations left, `attempt`
the 1-based index of the current attempt.  Falling off the loop raises
`RuntimeError` carrying the last error (source line 101). -/
def fetchGo (script : Nat → ScriptedAttempt) (base : Rat) :
    Nat → Nat → Option String → FetchTrace
  | 0, _, lastErr => ⟨.exhausted lastErr, [], 0⟩
  | fuel + 1, attempt, _ =>
    match (script attempt).result with
    | .netError m =>
      FetchTrace.step attempt (base * 2 ^ (attempt - 1) + (script attempt).u1)
        (fetchGo script base fuel (attempt + 1)
          (some (errMsgOf (.netError m))))
    | .http code body text =>
      if 400 ≤ code then
        if is_retryable_http code then
          FetchTrace.step attempt
            (if code = 429 then
              max 30 (base * 2 ^ (attempt - 1)) + (script attempt).u15
            else base * 2 ^ (attempt - 1) + (script attempt).u1)
            (fetchGo script base fuel (attempt + 1)
              (some (errMsgOf (.http code body text))))
        else ⟨.fatalHttp code text, [], 1⟩
      else ⟨.success (extract_products body), [], 1⟩

/-- Embedding of `fetch_page_with_retry` (source lines 34-101): run the retry
loop from attempt 1 with `last_err = None`. -/
def fetch_page_with_retry (script : Nat → ScriptedAttempt) (maxRetries : Nat)
    (base : Rat) : FetchTrace :=
  fetchGo script base maxRetries 1 none

/-- The backoff the code sleeps before the attempt after a retryable failure
at (1-based) attempt `k`: `base * 2 ^ (k - 1)` plus the `uniform(0, 1.0)`
jitter, except that a 429 response waits `max(30, base * 2 ^ (k - 1))` plus
the `uniform(0, 1.5)` jitter. -/
def sleepSpec (script : Nat → ScriptedAttempt) (base : Rat) (k : Nat)
    (s : Rat) : Prop :=
  match (script k).result with
  | .netError _ => s = base * 2 ^ (k - 1) + (script k).u1
  | .http code _ _ =>
    if code = 429 then s = max 30 (base * 2 ^ (k - 1)) + (script k).u15
    else s = base * 2 ^ (k - 1) + (script k).u1

/-- Scripted run for the C4 witness: every attempt returns HTTP 429 with a
`uniform(0, 1.5)` draw of 1. -/
def scr429 : Nat → ScriptedAttempt :=
  fun _ => ⟨.http 429 Json.null "rate limited", 0, 1⟩

/-- Scripted run for the C3 witness: the upstream returns HTTP 401 on every
attempt. -/
def scr401 : Nat → ScriptedAttempt :=
  fun _ => ⟨.http 401 Json.null "Unauthorized", 0, 0⟩

/-- A scripted attempt on which the loop retries instead of returning: a
network failure, or an HTTP response with a retryable status at least 400. -/
def retryableFail (sa : ScriptedAttempt) : Bool :=
  match sa.result with
  | .netError _ => true
  | .http code _ _ => if 400 ≤ code then is_retryable_http code else false

/-- The value `last_err` holds after running `fuel` more failing attempts
starting at attempt index `attempt` with current value `le`: mirrors how each
failed attempt overwrites `last_err` with its own message. -/
def lastErrAfter (script : Nat → ScriptedAttempt) :
    Nat → Nat → Option String → Option String
  | 0, _, le => le
  | fuel + 1, attempt, _ =>
    lastErrAfter script fuel (attempt + 1)
      (some (errMsgOf (script attempt).result))

/-- Body of the successful third attempt in the C5 witness scenario. -/
def body553 : Json :=
  Json.obj [("data", Json.obj [("products", Json.arr [Json.num 111])])]

/-- Scripted run for the C5 witness: 503, 503, then 200 with a one-product
page. -/
def scr553 : Nat → ScriptedAttempt :=
  fun i => if i = 3 then ⟨.http 200 body553 "", 0, 0⟩
           else ⟨.http 503 Json.null "busy", 0, 0⟩

/-- The immutable parameters of one report request, as passed to
`upsert_raw_items` (source lines 104-112). -/
structure ReportQuery where
  report_date : Int
  position_cluster : String
  include_substituted_skus : Bool
  include_search_texts : Bool
  order_field : String
  order_mode : String

/-- The 7-column composite key of `public.wb_search_products_daily_raw`
(source line 137). -/
structure RowKey where
  report_date : Int
  position_cluster : String
  include_substituted_skus : Bool
  include_search_texts : Bool
  order_field : String
  order_mode : String
  nm_id : Int
deriving DecidableEq

/-- The stored table: rows of (composite key, raw_item payload).  The payload
is kept as the JSON document itself (`json.dumps` on write and the `::jsonb`
cast on conflict round-trip the document). -/
abbrev Table := List (RowKey × Json)

/-- Whether a row with key `k` exists in the table. -/
def hasKey (t : Table) (k : RowKey) : Bool :=
  t.any (fun r => decide (r.1 = k))

/-- The keys of the table's rows, in row order. -/
def keysOf (t : Table) : List RowKey := t.map Prod.fst

/-- The table invariant: the composite key is unique in storage. -/
def NoDupKeys (t : Table) : Prop := (keysOf t).Nodup

/-- The payload stored under key `k`, if any. -/
def findRow (t : Table) (k : RowKey) : Option Json :=
  (t.find? (fun r => decide (r.1 = k))).map Prod.snd

/-- Semantics of one row of the
`insert ... on conflict (...) do update set raw_item = excluded.raw_item`
statement (source lines 133-142): on conflict the existing row's payload is
overwritten in place, otherwise a new row is appended. -/
def upsertRow (t : Table) (k : RowKey) (v : Json) : Table :=
  if hasKey t k then t.map (fun r => if r.1 = k then (k, v) else r)
  else t ++ [(k, v)]

/-- Apply a list of upsert rows in order. -/
def applyRows (t : Table) (rows : List (RowKey × Json)) : Table :=
  rows.foldl (fun acc r => upsertRow acc r.1 r.2) t

/-- Split a list into consecutive chunks of size `n` (the paging done by
`execute_values(cur, sql, rows, page_size=1000)`, source line 145).  A page
size of 0 degenerates to a single chunk. -/
def chunked (n : Nat) : List α → List (List α)
  | [] => []
  | a :: as =>
    match n with
    | 0 => [a :: as]
    | m + 1 => (a :: as).take (m + 1) :: chunked (m + 1) ((a :: as).drop (m + 1))
termination_by l => l.length
decreasing_by
  simp only [List.drop_succ_cons, List.length_cons, List.length_drop]
  omega

/-- Apply the chunks of an upsert batch in order. -/
def applyChunks (t : Table) (cs : List (List (RowKey × Json))) : Table :=
  cs.foldl applyRows t

/-- One raw product record: a JSON object's field list (`Dict[str, Any]`). -/
abbrev ProductRecord := List (String × Json)

/-- Embedding of `p.get("nmId")` followed by the `if nm_id is None` check
(source lines 119-121): a JSON `null` value parses to Python `None`, so both
a missing key and a null value yield `none`. -/
def pyGetNm (p : ProductRecord) : Option Json :=
  match lookupField p "nmId" with
  | some .null => none
  | some v => some v
  | none => none

/-- Whitespace characters stripped by Python `int(s)`. -/
def isPySpace (c : Char) : Bool :=
  c = ' ' || c = Char.ofNat 9 || c = Char.ofNat 10 || c = Char.ofNat 13

/-- Model of Python `int(s)` on a string: optional surrounding whitespace,
an optional sign, then decimal digits.  (Underscore digit grouping is not
modelled; it does not occur in the data of interest.) -/
def parsePyInt (s : String) : Option Int :=
  match ((s.toList.dropWhile isPySpace).reverse.dropWhile isPySpace).reverse with
  | [] => none
  | c :: cs =>
    if c = '-' then
      if !cs.isEmpty && cs.all Char.isDigit then
        some (-(cs.foldl (fun a d => a * 10 + (d.toNat - 48)) 0 : Nat))
      else none
    else if c = '+' then
      if !cs.isEmpty && cs.all Char.isDigit then
        some ((cs.foldl (fun a d => a * 10 + (d.toNat - 48)) 0 : Nat))
      else none
    else if (c :: cs).all Char.isDigit then
      some (((c :: cs).foldl (fun a d => a * 10 + (d.toNat - 48)) 0 : Nat))
    else none

/-- Model of Python `int(x)` on a JSON value (source line 129): integers pass
through, booleans coerce to 0/1, numeric strings parse, anything else raises
(`none` here marks the raised `TypeError`/`ValueError`). -/
def pyInt : Json → Option Int
  | .num n => some n
  | .bool b => some (if b then 1 else 0)
  | .str s => parsePyInt s
  | _ => none

/-- The composite key built for one product (source lines 122-129). -/
def rowKey (q : ReportQuery) (nm : Int) : RowKey :=
  ⟨q.report_date, q.position_cluster, q.include_substituted_skus,
   q.include_search_texts, q.order_field, q.order_mode, nm⟩

/-- Embedding of the row-building loop of `upsert_raw_items` (source lines
117-131): records whose `nmId` is missing or null are skipped; otherwise the
identifier is coerced with `int(...)` (an uncoercible value raises, aborting
the whole call) and the full record becomes the payload. -/
def buildRows (q : ReportQuery) : List ProductRecord →
    Except String (List (RowKey × Json))
  | [] => .ok []
  | p :: ps =>
    match pyGetNm p with
    | none => buildRows q ps
    | some v =>
      match pyInt v with
      | none => .error "invalid literal for int() with base 10"
      | some nm =>
        match buildRows q ps with
        | .error e => .error e
        | .ok rest => .ok ((rowKey q nm, Json.obj p) :: rest)

/-- The database connection state: the table contents and the number of
`conn.commit()` calls issued. -/
structure DbState where
  table : Table
  commits : Nat

/-- Embedding of `upsert_raw_items` (source lines 104-147): an empty product
list returns 0 immediately without touching the database; otherwise the rows
are built, executed in chunks of 1000, one commit is issued, and the number
of rows attempted (post-filter) is returned. -/
def upsert_raw_items (q : ReportQuery) (products : List ProductRecord)
    (db : DbState) : Except String (DbState × Nat) :=
  if products.isEmpty then .ok (db, 0)
  else
    match buildRows q products with
    | .error e => .error e
    | .ok rows =>
      .ok (⟨applyChunks db.table (chunked 1000 rows), db.commits + 1⟩,
        rows.length)

/-- Embedding of the `while True` pagination loop of `main` (source lines
186-225) for one report date, against a data source holding `records` served
in offset order: each iteration fetches the page
`records[offset : offset + limit]`; an empty page ends the loop at once, a
non-empty page is loaded and the loop ends if the page is shorter than
`limit`, otherwise the offset advances by `limit`.  Returns the list of
fetched pages in order. -/
def paginateLoop (limit : Nat) (records : List Json) (offset : Nat) :
    List (List Json) :=
  let page := (records.drop offset).take limit
  if page.isEmpty then [page]
  else if page.length < limit then [page]
  else page :: paginateLoop limit records (offset + limit)
termination_by records.length - offset
decreasing_by
  rename_i hne hfull
  simp only [page, List.isEmpty_iff, List.length_take, List.length_drop,
    not_lt, ← List.length_pos_iff_ne_nil] at hne hfull
  omega

/-- The last payload a batch writes under key `k`, if any. -/
def lastWrite (k : RowKey) (rows : List (RowKey × Json)) : Option Json :=
  rows.foldl (fun acc r => if r.1 = k then some r.2 else acc) none

/-- `orDefault o b` is `o` when `o` carries a value and `b` otherwise. -/
def orDefault (o b : Option Json) : Option Json :=
  match o with
  | some w => some w
  | none => b

/-- Query parameters used by the loader witnesses (the environment-variable
defaults of `main`). -/
def q0 : ReportQuery := ⟨0, "all", true, true, "orders", "desc"⟩

/-- A product record carrying `nmId = 5`. -/
def prod1 : ProductRecord := [("nmId", Json.num 5)]

/-- A product record with no `nmId` field. -/
def prodNoId : ProductRecord := [("brand", Json.str "X")]

/-- The upsert rows built from `prod1` under `q0`. -/
def rows1 : List (RowKey × Json) := [(rowKey q0 5, Json.obj prod1)]

/-- Database state after loading `prod1` once into an empty table. -/
def db1c : DbState := ⟨applyChunks [] (chunked 1000 rows1), 1⟩

/-- Database state after loading `prod1` a second time. -/
def db2c : DbState := ⟨applyChunks db1c.table (chunked 1000 rows1), 2⟩

theorem sleeps_spec_of_mem (script : Nat → ScriptedAttempt) (base : Rat) :
    ∀ (fuel attempt : Nat) (le : Option String) (k : Nat) (s : Rat),
      (k, s) ∈ (fetchGo script base fuel attempt le).sleeps →
      sleepSpec script base k s := by
  intro fuel
  induction fuel with
  | zero =>
    intro attempt le k s hmem
    simp [fetchGo] at hmem
  | succ n ih =>
    intro attempt le k s hmem
    cases hsa : (script attempt).result with
    | netError m =>
      rw [fetchGo] at hmem
      rw [hsa] at hmem
      dsimp only at hmem
      simp only [FetchTrace.step, List.mem_cons] at hmem
      rcases hmem with heq | htail
      · obtain ⟨hk, hs⟩ := Prod.mk.injEq .. ▸ heq
        subst hk
        unfold sleepSpec
        rw [hsa]
        exact hs
      · exact ih _ _ k s htail
    | http code body text =>
      rw [fetchGo] at hmem
      rw [hsa] at hmem
      dsimp only at hmem
      by_cases hc : 400 ≤ code
      · rw [if_pos hc] at hmem
        by_cases hr : is_retryable_http code
        · rw [if_pos hr] at hmem
          simp only [FetchTrace.step, List.mem_cons] at hmem
          rcases hmem with heq | htail
          · obtain ⟨hk, hs⟩ := Prod.mk.injEq .. ▸ heq
            subst hk
            unfold sleepSpec
            rw [hsa]
            dsimp only
            by_cases h429 : code = 429
            · rw [if_pos h429] at hs ⊢
              exact hs
            · rw [if_neg h429] at hs ⊢
              exact hs
          · exact ih _ _ k s htail
        · rw [if_neg hr] at hmem
          simp at hmem
      · rw [if_neg hc] at hmem
        simp at hmem

/-- C4: every backoff sleep recorded by the retry loop at (1-based) attempt
`k` equals `base * 2 ^ (k - 1)` plus the attempt's `uniform(0, 1.0)` jitter,
except a 429 response, which sleeps `max(30, base * 2 ^ (k - 1))` plus the
attempt's `uniform(0, 1.5)` jitter — hence a 429 always waits at least 30
seconds (the jitter being nonnegative), regardless of the attempt number. -/
theorem claim4_backoff (script : Nat → ScriptedAttempt) (maxRetries : Nat)
    (base : Rat) (k : Nat) (s : Rat)
    (hmem : (k, s) ∈ (fetch_page_with_retry script maxRetries base).sleeps) :
    sleepSpec script base k s ∧
    (∀ code body text, (script k).result = .http code body text →
      code = 429 → 0 ≤ (script k).u15 → 30 ≤ s) := by
  have hspec := sleeps_spec_of_mem script base maxRetries 1 none k s hmem
  refine ⟨hspec, ?_⟩
  intro code body text hres hcode hjit
  unfold sleepSpec at hspec
  rw [hres] at hspec
  dsimp only at hspec
  rw [if_pos hcode] at hspec
  rw [hspec]
  exact le_add_of_le_of_nonneg (le_max_left _ _) hjit

/-- Witness for C4: with `base = 5`, attempt 1 of a run scripted to hit 429
sleeps `max(30, 5 * 2 ^ 0) + 1 = 31`, and 31 is at least 30. -/
theorem claim4_witness : (30 : Rat) ≤ 31 ∧ sleepSpec scr429 5 1 31 := by
  have hmem : ((1 : Nat), (31 : Rat)) ∈
      (fetch_page_with_retry scr429 1 5).sleeps := by
    simp only [fetch_page_with_retry, fetchGo, scr429, FetchTrace.step]
    norm_num [is_retryable_http]
  have h := claim4_backoff scr429 1 5 1 31 hmem
  exact ⟨h.2 429 Json.null "rate limited" rfl rfl (by norm_num [scr429]), h.1⟩

/-- C3: `fetch_page_with_retry` classifies a status code at least 400 as
retryable exactly when it is one of 429, 500, 502, 503, 504; any other status
at least 400 (such as 401) raises the fatal error immediately, after exactly
one request and with zero retries (no sleep); a network timeout or connection
failure on the first attempt is retried (the loop sleeps the attempt-1 backoff
and continues), as is a retryable HTTP failure. -/
theorem claim3_retryable_classification :
    (∀ code : Nat, 400 ≤ code →
      (is_retryable_http code = true ↔
        (code = 429 ∨ code = 500 ∨ code = 502 ∨ code = 503 ∨ code = 504))) ∧
    (∀ (script : Nat → ScriptedAttempt) (maxRetries : Nat) (base : Rat)
        (code : Nat) (body : Json) (text : String),
      1 ≤ maxRetries → (script 1).result = .http code body text →
      400 ≤ code → is_retryable_http code = false →
      fetch_page_with_retry script maxRetries base =
        ⟨.fatalHttp code text, [], 1⟩) ∧
    (∀ (script : Nat → ScriptedAttempt) (maxRetries : Nat) (base : Rat)
        (m : String),
      1 ≤ maxRetries → (script 1).result = .netError m →
      (fetch_page_with_retry script maxRetries base).sleeps.head? =
        some (1, base * 2 ^ (1 - 1) + (script 1).u1)) ∧
    (∀ (script : Nat → ScriptedAttempt) (maxRetries : Nat) (base : Rat)
        (code : Nat) (body : Json) (text : String),
      1 ≤ maxRetries → (script 1).result = .http code body text →
      400 ≤ code → is_retryable_http code = true →
      1 ≤ (fetch_page_with_retry script maxRetries base).sleeps.length) := by
  refine ⟨?_, ?_, ?_, ?_⟩
  · intro code _
    unfold is_retryable_http
    simp only [Bool.or_eq_true, beq_iff_eq]
    tauto
  · intro script maxRetries base code body text hmax hres hc hr
    cases maxRetries with
    | zero => omega
    | succ mm =>
      unfold fetch_page_with_retry
      rw [fetchGo, hres]
      dsimp only
      rw [if_pos hc, hr]
      simp
  · intro script maxRetries base m hmax hres
    cases maxRetries with
    | zero => omega
    | succ mm =>
      unfold fetch_page_with_retry
      rw [fetchGo, hres]
      rfl
  · intro script maxRetries base code body text hmax hres hc hr
    cases maxRetries with
    | zero => omega
    | succ mm =>
      unfold fetch_page_with_retry
      rw [fetchGo, hres]
      dsimp only
      rw [if_pos hc, hr]
      simp [FetchTrace.step]

/-- Witness for C3: a 401 on the first attempt aborts immediately — one
request, no sleeps, fatal outcome. -/
theorem claim3_witness :
    fetch_page_with_retry scr401 6 5 =
      ⟨.fatalHttp 401 "Unauthorized", [], 1⟩ :=
  claim3_retryable_classification.2.1 scr401 6 5 401 Json.null "Unauthorized"
    (by decide) rfl (by decide) (by decide)

theorem fetchGo_attempts_le (script : Nat → ScriptedAttempt) (base : Rat) :
    ∀ (fuel attempt : Nat) (le : Option String),
      (fetchGo script base fuel attempt le).attemptsMade ≤ fuel := by
  intro fuel
  induction fuel with
  | zero => intro attempt le; simp [fetchGo]
  | succ n ih =>
    intro attempt le
    rw [fetchGo]
    cases hsa : (script attempt).result with
    | netError m =>
      dsimp only [FetchTrace.step]
      exact Nat.succ_le_succ (ih _ _)
    | http code body text =>
      dsimp only
      by_cases hc : 400 ≤ code
      · rw [if_pos hc]
        by_cases hr : is_retryable_http code
        · rw [if_pos hr]
          dsimp only [FetchTrace.step]
          exact Nat.succ_le_succ (ih _ _)
        · rw [if_neg hr]
          dsimp only
          omega
      · rw [if_neg hc]
        dsimp only
        omega

theorem fetchGo_success (script : Nat → ScriptedAttempt) (base : Rat)
    (j : Nat) (code : Nat) (body : Json) (text : String)
    (hres : (script j).result = .http code body text) (hcode : code < 400) :
    ∀ (fuel attempt : Nat) (le : Option String),
      attempt ≤ j → j < attempt + fuel →
      (∀ i, attempt ≤ i → i < j → retryableFail (script i) = true) →
      (fetchGo script base fuel attempt le).outcome =
        .success (extract_products body) ∧
      (fetchGo script base fuel attempt le).attemptsMade = j - attempt + 1 := by
  intro fuel
  induction fuel with
  | zero => intro attempt le h1 h2 _; omega
  | succ n ih =>
    intro attempt le h1 h2 hall
    by_cases hj : attempt = j
    · subst hj
      rw [fetchGo, hres]
      dsimp only
      have hnc : ¬ 400 ≤ code := by omega
      rw [if_neg hnc]
      exact ⟨rfl, by dsimp only; omega⟩
    · have hfail := hall attempt (le_refl _) (by omega)
      unfold retryableFail at hfail
      cases hsa : (script attempt).result with
      | netError m =>
        rw [fetchGo, hsa]
        dsimp only [FetchTrace.step]
        obtain ⟨ho, ha⟩ := ih (attempt + 1) (some (errMsgOf (.netError m)))
          (by omega) (by omega) (fun i hi1 hi2 => hall i (by omega) hi2)
        exact ⟨ho, by rw [ha]; omega⟩
      | http c b t =>
        rw [hsa] at hfail
        dsimp only at hfail
        by_cases hc : 400 ≤ c
        · rw [if_pos hc] at hfail
          rw [fetchGo, hsa]
          dsimp only
          rw [if_pos hc, if_pos hfail]
          dsimp only [FetchTrace.step]
          obtain ⟨ho, ha⟩ := ih (attempt + 1)
            (some (errMsgOf (.http c b t)))
            (by omega) (by omega) (fun i hi1 hi2 => hall i (by omega) hi2)
          exact ⟨ho, by rw [ha]; omega⟩
        · rw [if_neg hc] at hfail
          exact absurd hfail (by simp)

theorem lastErrAfter_eq (script : Nat → ScriptedAttempt) :
    ∀ (fuel attempt : Nat) (le : Option String), 1 ≤ fuel →
      lastErrAfter script fuel attempt le =
        some (errMsgOf (script (attempt + (fuel - 1))).result) := by
  intro fuel
  induction fuel with
  | zero => intro attempt le h; omega
  | succ n ih =>
    intro attempt le _
    rw [lastErrAfter]
    cases n with
    | zero => simp [lastErrAfter]
    | succ nn =>
      rw [ih (attempt + 1) _ (by omega)]
      have harg : attempt + 1 + (nn + 1 - 1) = attempt + (nn + 1 + 1 - 1) := by
        omega
      rw [harg]

theorem fetchGo_exhaust (script : Nat → ScriptedAttempt) (base : Rat) :
    ∀ (fuel attempt : Nat) (le : Option String),
      (∀ i, attempt ≤ i → i < attempt + fuel → retryableFail (script i) = true) →
      (fetchGo script base fuel attempt le).outcome =
        .exhausted (lastErrAfter script fuel attempt le) := by
  intro fuel
  induction fuel with
  | zero => intro attempt le _; simp [fetchGo, lastErrAfter]
  | succ n ih =>
    intro attempt le hall
    have hfail := hall attempt (le_refl _) (by omega)
    unfold retryableFail at hfail
    have hrec : ∀ le2 : Option String,
        (fetchGo script base n (attempt + 1) le2).outcome =
          .exhausted (lastErrAfter script n (attempt + 1) le2) :=
      fun le2 => ih (attempt + 1) le2
        (fun i hi1 hi2 => hall i (by omega) (by omega))
    cases hsa : (script attempt).result with
    | netError m =>
      rw [fetchGo, hsa]
      dsimp only [FetchTrace.step]
      rw [hrec]
      rw [lastErrAfter]
      rw [hsa]
    | http c b t =>
      rw [hsa] at hfail
      dsimp only at hfail
      by_cases hc : 400 ≤ c
      · rw [if_pos hc] at hfail
        rw [fetchGo, hsa]
        dsimp only
        rw [if_pos hc, if_pos hfail]
        dsimp only [FetchTrace.step]
        rw [hrec]
        rw [lastErrAfter]
        rw [hsa]
      · rw [if_neg hc] at hfail
        exact absurd hfail (by simp)

/-- C5: the retry loop issues at most `max_retries` requests; if attempts
1 through j-1 all fail retryably and attempt j (within the budget) returns an
HTTP status below 400, the extracted page is returned after exactly j
attempts; and if all `max_retries` attempts fail retryably, the loop raises
the exhaustion error carrying the failure message of the last attempt. -/
theorem claim5_retry_budget :
    (∀ (script : Nat → ScriptedAttempt) (maxRetries : Nat) (base : Rat),
      (fetch_page_with_retry script maxRetries base).attemptsMade ≤
        maxRetries) ∧
    (∀ (script : Nat → ScriptedAttempt) (maxRetries : Nat) (base : Rat)
        (j code : Nat) (body : Json) (text : String),
      1 ≤ j → j ≤ maxRetries →
      (∀ i, i < j → 1 ≤ i → retryableFail (script i) = true) →
      (script j).result = .http code body text → code < 400 →
      (fetch_page_with_retry script maxRetries base).outcome =
        .success (extract_products body) ∧
      (fetch_page_with_retry script maxRetries base).attemptsMade = j) ∧
    (∀ (script : Nat → ScriptedAttempt) (maxRetries : Nat) (base : Rat),
      1 ≤ maxRetries →
      (∀ i, i ≤ maxRetries → 1 ≤ i → retryableFail (script i) = true) →
      (fetch_page_with_retry script maxRetries base).outcome =
        .exhausted (some (errMsgOf (script maxRetries).result))) := by
  refine ⟨?_, ?_, ?_⟩
  · intro script maxRetries base
    exact fetchGo_attempts_le script base maxRetries 1 none
  · intro script maxRetries base j code body text h1 h2 hall hres hcode
    unfold fetch_page_with_retry
    obtain ⟨ho, ha⟩ := fetchGo_success script base j code body text hres hcode
      maxRetries 1 none h1 (by omega) (fun i hi1 hi2 => hall i hi2 hi1)
    exact ⟨ho, by rw [ha]; omega⟩
  · intro script maxRetries base hmax hall
    unfold fetch_page_with_retry
    rw [fetchGo_exhaust script base maxRetries 1 none
      (fun i hi1 hi2 => hall i (by omega) hi1)]
    rw [lastErrAfter_eq script maxRetries 1 none hmax]
    have harg : 1 + (maxRetries - 1) = maxRetries := by omega
    rw [harg]

/-- Witness for C5: under the 503, 503, 200 script the fetch succeeds on the
third attempt with the page extracted from the 200 response. -/
theorem claim5_witness :
    (fetch_page_with_retry scr553 6 5).outcome = .success [Json.num 111] ∧
    (fetch_page_with_retry scr553 6 5).attemptsMade = 3 := by
  have h := claim5_retry_budget.2.1 scr553 6 5 3 200 body553 ""
    (by decide) (by decide) (by decide) rfl (by decide)
  refine ⟨?_, h.2⟩
  rw [h.1]
  rfl

theorem keysOf_cons (r : RowKey × Json) (t : Table) :
    keysOf (r :: t) = r.1 :: keysOf t := rfl

theorem keysOf_append (t1 t2 : Table) :
    keysOf (t1 ++ t2) = keysOf t1 ++ keysOf t2 := by
  simp [keysOf]

theorem hasKey_iff (t : Table) (k : RowKey) :
    hasKey t k = true ↔ k ∈ keysOf t := by
  simp [hasKey, keysOf, List.any_eq_true, List.mem_map, decide_eq_true_eq]

theorem hasKey_cons (r : RowKey × Json) (t : Table) (k : RowKey) :
    hasKey (r :: t) k = (decide (r.1 = k) || hasKey t k) := by
  simp [hasKey]

theorem findRow_cons (r : RowKey × Json) (t : Table) (k : RowKey) :
    findRow (r :: t) k = if r.1 = k then some r.2 else findRow t k := by
  by_cases h : r.1 = k
  · simp [findRow, List.find?_cons_of_pos, h]
  · simp [findRow, List.find?_cons_of_neg, h]

theorem findRow_eq_none (t : Table) (k : RowKey) (h : hasKey t k = false) :
    findRow t k = none := by
  induction t with
  | nil => rfl
  | cons r t ih =>
    rw [hasKey_cons] at h
    simp only [Bool.or_eq_false_iff, decide_eq_false_iff_not] at h
    rw [findRow_cons, if_neg h.1, ih h.2]

theorem keysOf_replace (t : Table) (k : RowKey) (v : Json) :
    keysOf (t.map (fun r => if r.1 = k then (k, v) else r)) = keysOf t := by
  induction t with
  | nil => rfl
  | cons r t ih =>
    rw [List.map_cons, keysOf_cons, keysOf_cons, ih]
    by_cases h : r.1 = k
    · rw [if_pos h, h]
    · rw [if_neg h]

theorem keysOf_upsertRow (t : Table) (k : RowKey) (v : Json) :
    keysOf (upsertRow t k v) =
      if hasKey t k then keysOf t else keysOf t ++ [k] := by
  unfold upsertRow
  by_cases h : hasKey t k
  · rw [if_pos h, if_pos h, keysOf_replace]
  · rw [if_neg h, if_neg h, keysOf_append]
    rfl

theorem noDupKeys_upsertRow (t : Table) (k : RowKey) (v : Json)
    (h : NoDupKeys t) : NoDupKeys (upsertRow t k v) := by
  unfold NoDupKeys
  rw [keysOf_upsertRow]
  by_cases hk : hasKey t k
  · rw [if_pos hk]; exact h
  · rw [if_neg hk, List.nodup_append]
    refine ⟨h, List.nodup_singleton _, ?_⟩
    intro a ha hb
    rw [List.mem_singleton] at hb
    subst hb
    exact absurd ((hasKey_iff t a).mpr ha) (by simpa using hk)

theorem findRow_replace_self (t : Table) (k : RowKey) (v : Json) :
    findRow (t.map (fun r => if r.1 = k then (k, v) else r)) k =
      if hasKey t k then some v else none := by
  induction t with
  | nil => rfl
  | cons r t ih =>
    by_cases h : r.1 = k
    · simp [List.map_cons, findRow_cons, hasKey_cons, h]
    · simp [List.map_cons, findRow_cons, hasKey_cons, h, ih]

theorem findRow_replace_other (t : Table) (k kp : RowKey) (v : Json)
    (hne : kp ≠ k) :
    findRow (t.map (fun r => if r.1 = k then (k, v) else r)) kp =
      findRow t kp := by
  induction t with
  | nil => rfl
  | cons r t ih =>
    by_cases h : r.1 = k
    · simp [List.map_cons, findRow_cons, h, Ne.symm hne, ih]
    · simp [List.map_cons, findRow_cons, h, ih]

theorem findRow_append_single (t : Table) (k : RowKey) (v : Json)
    (kp : RowKey) :
    findRow (t ++ [(k, v)]) kp =
      match findRow t kp with
      | some w => some w
      | none => if kp = k then some v else none := by
  induction t with
  | nil =>
    by_cases h : kp = k
    · subst h
      simp [findRow_cons, findRow]
    · have hks : ¬ k = kp := fun he => h he.symm
      simp [findRow_cons, findRow, h, hks]
  | cons r t ih =>
    rw [List.cons_append, findRow_cons, findRow_cons]
    by_cases h : r.1 = kp
    · rw [if_pos h, if_pos h]
    · rw [if_neg h, if_neg h, ih]

theorem hasKey_false_of_not_mem (t : Table) (k : RowKey)
    (h : ¬ hasKey t k = true) : hasKey t k = false := by
  cases hk : hasKey t k
  · rfl
  · exact absurd hk h

theorem findRow_upsertRow (t : Table) (k : RowKey) (v : Json) (kp : RowKey) :
    findRow (upsertRow t k v) kp =
      if kp = k then some v else findRow t kp := by
  unfold upsertRow
  by_cases hk : hasKey t k
  · rw [if_pos hk]
    by_cases he : kp = k
    · subst he
      rw [findRow_replace_self, if_pos hk, if_pos rfl]
    · rw [findRow_replace_other t k kp v he, if_neg he]
  · rw [if_neg hk, findRow_append_single]
    by_cases he : kp = k
    · subst he
      rw [findRow_eq_none t kp (hasKey_false_of_not_mem t kp hk)]
    · cases hf : findRow t kp with
      | some w => simp [he]
      | none => simp [he]

theorem applyRows_cons (t : Table) (r : RowKey × Json)
    (rows : List (RowKey × Json)) :
    applyRows t (r :: rows) = applyRows (upsertRow t r.1 r.2) rows := rfl

theorem applyRows_append (t : Table) (l1 l2 : List (RowKey × Json)) :
    applyRows t (l1 ++ l2) = applyRows (applyRows t l1) l2 := by
  unfold applyRows
  rw [List.foldl_append]

theorem noDupKeys_applyRows (t : Table) (rows : List (RowKey × Json))
    (h : NoDupKeys t) : NoDupKeys (applyRows t rows) := by
  induction rows generalizing t with
  | nil => exact h
  | cons r rows ih => exact ih _ (noDupKeys_upsertRow _ _ _ h)

theorem hasKey_upsertRow_iff (t : Table) (k : RowKey) (v : Json)
    (kp : RowKey) :
    hasKey (upsertRow t k v) kp = true ↔ (hasKey t kp = true ∨ kp = k) := by
  rw [hasKey_iff, hasKey_iff, keysOf_upsertRow]
  by_cases hk : hasKey t k
  · rw [if_pos hk]
    constructor
    · exact fun h => Or.inl h
    · rintro (h | rfl)
      · exact h
      · exact (hasKey_iff t kp).mp hk
  · rw [if_neg hk, List.mem_append, List.mem_singleton]

theorem hasKey_applyRows_of_hasKey (t : Table)
    (rows : List (RowKey × Json)) (kp : RowKey)
    (h : hasKey t kp = true) : hasKey (applyRows t rows) kp = true := by
  induction rows generalizing t with
  | nil => exact h
  | cons r rows ih =>
    rw [applyRows_cons]
    exact ih _ ((hasKey_upsertRow_iff _ _ _ _).mpr (Or.inl h))

theorem hasKey_applyRows_of_mem (t : Table) (rows : List (RowKey × Json))
    (r : RowKey × Json) (h : r ∈ rows) :
    hasKey (applyRows t rows) r.1 = true := by
  induction rows generalizing t with
  | nil => simp at h
  | cons s rows ih =>
    rcases List.mem_cons.mp h with rfl | hmem
    · rw [applyRows_cons]
      exact hasKey_applyRows_of_hasKey _ _ _
        ((hasKey_upsertRow_iff _ _ _ _).mpr (Or.inr rfl))
    · rw [applyRows_cons]
      exact ih _ hmem

theorem keysOf_applyRows (t : Table) (rows : List (RowKey × Json))
    (h : ∀ r ∈ rows, hasKey t r.1 = true) :
    keysOf (applyRows t rows) = keysOf t := by
  induction rows generalizing t with
  | nil => rfl
  | cons r rows ih =>
    have hup : ∀ s ∈ rows, hasKey (upsertRow t r.1 r.2) s.1 = true :=
      fun s hs => (hasKey_upsertRow_iff _ _ _ _).mpr
        (Or.inl (h s (List.mem_cons_of_mem _ hs)))
    rw [applyRows_cons, ih _ hup, keysOf_upsertRow,
      if_pos (h r (List.mem_cons_self _ _))]

theorem findRow_applyRows (t : Table) (rows : List (RowKey × Json))
    (k : RowKey) :
    findRow (applyRows t rows) k =
      rows.foldl (fun acc r => if r.1 = k then some r.2 else acc)
        (findRow t k) := by
  induction rows generalizing t with
  | nil => rfl
  | cons r rows ih =>
    rw [applyRows_cons, List.foldl_cons, ih]
    congr 1
    rw [findRow_upsertRow]
    by_cases h : r.1 = k
    · rw [if_pos h.symm, if_pos h]
    · rw [if_neg (fun he => h he.symm), if_neg h]

theorem foldl_lastWrite (k : RowKey) (rows : List (RowKey × Json)) :
    ∀ b : Option Json,
      rows.foldl (fun acc r => if r.1 = k then some r.2 else acc) b =
        orDefault (lastWrite k rows) b := by
  induction rows with
  | nil => intro b; rfl
  | cons r rows ih =>
    intro b
    have hL : lastWrite k (r :: rows) =
        orDefault (lastWrite k rows) (if r.1 = k then some r.2 else none) := by
      unfold lastWrite
      rw [List.foldl_cons, ih]
      rfl
    rw [List.foldl_cons, ih, hL]
    cases lastWrite k rows with
    | some w => rfl
    | none =>
      by_cases h : r.1 = k
      · simp only [if_pos h]
        rfl
      · simp only [if_neg h]
        rfl

theorem findRow_applyRows_twice (t : Table) (rows : List (RowKey × Json))
    (k : RowKey) :
    findRow (applyRows (applyRows t rows) rows) k =
      findRow (applyRows t rows) k := by
  rw [findRow_applyRows, findRow_applyRows, foldl_lastWrite, foldl_lastWrite]
  cases lastWrite k rows with
  | some w => rfl
  | none => rfl

theorem table_ext : ∀ (t1 t2 : Table), NoDupKeys t1 → NoDupKeys t2 →
    keysOf t1 = keysOf t2 → (∀ k, findRow t1 k = findRow t2 k) → t1 = t2 := by
  intro t1
  induction t1 with
  | nil =>
    intro t2 _ _ hk _
    cases t2 with
    | nil => rfl
    | cons r t2 => simp [keysOf] at hk
  | cons r t1 ih =>
    intro t2 h1 h2 hk hf
    cases t2 with
    | nil => simp [keysOf] at hk
    | cons s t2 =>
      rw [keysOf_cons, keysOf_cons] at hk
      injection hk with hk1 hk2
      unfold NoDupKeys at h1 h2
      rw [keysOf_cons, List.nodup_cons] at h1 h2
      have hv : some r.2 = some s.2 := by
        have hfr := hf r.1
        rw [findRow_cons, findRow_cons, if_pos rfl, if_pos hk1.symm] at hfr
        exact hfr
      have hf2 : ∀ k, findRow t1 k = findRow t2 k := by
        intro k
        by_cases he : r.1 = k
        · subst he
          rw [findRow_eq_none t1 r.1, findRow_eq_none t2 r.1]
          · exact hasKey_false_of_not_mem _ _
              (fun hc => h2.1 (hk1 ▸ (hasKey_iff _ _).mp hc))
          · exact hasKey_false_of_not_mem _ _
              (fun hc => h1.1 ((hasKey_iff _ _).mp hc))
        · have hfk := hf k
          rw [findRow_cons, findRow_cons, if_neg he,
            if_neg (fun hc => he (hk1.trans hc))] at hfk
          exact hfk
      have ht : t1 = t2 := ih t2 h1.2 h2.2 hk2 hf2
      subst ht
      rw [Prod.ext hk1 (Option.some.inj hv)]

theorem applyRows_idem (t : Table) (rows : List (RowKey × Json))
    (h : NoDupKeys t) :
    applyRows (applyRows t rows) rows = applyRows t rows := by
  apply table_ext
  · exact noDupKeys_applyRows _ _ (noDupKeys_applyRows _ _ h)
  · exact noDupKeys_applyRows _ _ h
  · exact keysOf_applyRows _ _ (fun r hr => hasKey_applyRows_of_mem t rows r hr)
  · exact findRow_applyRows_twice t rows

theorem chunked_flatten_aux (n : Nat) :
    ∀ (len : Nat) (l : List α), l.length ≤ len → (chunked n l).flatten = l := by
  intro len
  induction len with
  | zero =>
    intro l hl
    rw [List.length_eq_zero.mp (Nat.le_zero.mp hl)]
    simp [chunked]
  | succ m ih =>
    intro l hl
    cases l with
    | nil => simp [chunked]
    | cons a as =>
      cases n with
      | zero =>
        rw [chunked]
        simp
      | succ mm =>
        rw [chunked]
        rw [List.flatten_cons,
          ih ((a :: as).drop (mm + 1))
            (by simp only [List.length_drop, List.length_cons] at hl ⊢; omega),
          List.take_append_drop]

theorem chunked_flatten (n : Nat) (l : List α) : (chunked n l).flatten = l :=
  chunked_flatten_aux n l.length l (le_refl _)

theorem applyChunks_eq_applyRows (t : Table)
    (cs : List (List (RowKey × Json))) :
    applyChunks t cs = applyRows t cs.flatten := by
  induction cs generalizing t with
  | nil => rfl
  | cons c cs ih =>
    unfold applyChunks
    rw [List.foldl_cons, List.flatten_cons, applyRows_append]
    exact ih (applyRows t c)

theorem applyChunks_chunked (t : Table) (n : Nat)
    (rows : List (RowKey × Json)) :
    applyChunks t (chunked n rows) = applyRows t rows := by
  rw [applyChunks_eq_applyRows, chunked_flatten]

theorem buildRows_skip (q : ReportQuery) (p : ProductRecord)
    (ps : List ProductRecord) (h : pyGetNm p = none) :
    buildRows q (p :: ps) = buildRows q ps := by
  rw [buildRows, h]

theorem buildRows_payloads (q : ReportQuery) :
    ∀ (products : List ProductRecord) (rows : List (RowKey × Json)),
      buildRows q products = .ok rows →
      rows.map Prod.snd =
        (products.filter (fun p => (pyGetNm p).isSome)).map Json.obj := by
  intro products
  induction products with
  | nil =>
    intro rows h
    injection h with h
    subst h
    rfl
  | cons p ps ih =>
    intro rows h
    cases hnm : pyGetNm p with
    | none =>
      rw [buildRows_skip q p ps hnm] at h
      rw [List.filter_cons_of_neg (by simp [hnm])]
      exact ih rows h
    | some v =>
      unfold buildRows at h
      rw [hnm] at h
      dsimp only at h
      cases hint : pyInt v with
      | none =>
        rw [hint] at h
        exact absurd h (by simp)
      | some nm =>
        rw [hint] at h
        cases hrec : buildRows q ps with
        | error e =>
          rw [hrec] at h
          exact absurd h (by simp)
        | ok rest =>
          rw [hrec] at h
          simp only [Except.ok.injEq] at h
          subst h
          rw [List.filter_cons_of_pos (by simp [hnm]), List.map_cons,
            List.map_cons, ih rest hrec]

/-- C1: applying the Loader twice with an identical `ReportQuery` and an
identical product batch yields the same final stored table as applying it
once; the table keeps at most one row per composite key; the returned counts
agree; and the internal chunking of the batch (reference page size 1000) does
not affect the final table for any chunk size. -/
theorem claim1_loader_idempotent (q : ReportQuery)
    (products : List ProductRecord) (db : DbState) (hnd : NoDupKeys db.table)
    (db1 : DbState) (n1 : Nat) (db2 : DbState) (n2 : Nat)
    (h1 : upsert_raw_items q products db = .ok (db1, n1))
    (h2 : upsert_raw_items q products db1 = .ok (db2, n2)) :
    db2.table = db1.table ∧ NoDupKeys db1.table ∧ n2 = n1 ∧
    (∀ (sz : Nat) (rows : List (RowKey × Json)),
      buildRows q products = .ok rows →
      applyChunks db.table (chunked sz rows) = applyRows db.table rows) := by
  unfold upsert_raw_items at h1 h2
  by_cases hp : products.isEmpty
  · rw [if_pos hp] at h1 h2
    have hpe : products = [] := List.isEmpty_iff.mp hp
    subst hpe
    simp only [Except.ok.injEq, Prod.mk.injEq] at h1 h2
    obtain ⟨hdb1, hn1⟩ := h1
    subst hdb1
    obtain ⟨hdb2, hn2⟩ := h2
    subst hdb2
    refine ⟨rfl, hnd, by omega, ?_⟩
    intro sz rows hb
    injection hb with hb
    subst hb
    exact applyChunks_chunked db.table sz []
  · rw [if_neg hp] at h1 h2
    cases hbr : buildRows q products with
    | error e =>
      rw [hbr] at h1
      exact absurd h1 (by simp)
    | ok rows =>
      rw [hbr] at h1 h2
      simp only [Except.ok.injEq, Prod.mk.injEq] at h1 h2
      obtain ⟨hdb1, hn1⟩ := h1
      obtain ⟨hdb2, hn2⟩ := h2
      have htab1 : db1.table = applyRows db.table rows := by
        rw [← hdb1]
        exact applyChunks_chunked db.table 1000 rows
      have htab2 : db2.table = applyRows db1.table rows := by
        rw [← hdb2]
        exact applyChunks_chunked db1.table 1000 rows
      have hnd1 : NoDupKeys db1.table := by
        rw [htab1]
        exact noDupKeys_applyRows _ _ hnd
      refine ⟨?_, hnd1, by omega, ?_⟩
      · rw [htab2, htab1, applyRows_idem db.table rows hnd, ← htab1]
      · intro sz rows2 hb2
        injection hb2 with hb2
        subst hb2
        exact applyChunks_chunked db.table sz rows

/-- C6: a record lacking `nmId` is never written (the stored payloads are
exactly the `nmId`-carrying records of the batch, in order), such records are
dropped without failing the call, and the returned count is the number of
post-filter rows attempted — the records carrying `nmId` — independent of
what the table previously contained. -/
theorem claim6_missing_id_filter (q : ReportQuery)
    (products : List ProductRecord) (db db2 : DbState) (n : Nat)
    (h : upsert_raw_items q products db = .ok (db2, n)) :
    ∃ rows, buildRows q products = .ok rows ∧
      rows.map Prod.snd =
        (products.filter (fun p => (pyGetNm p).isSome)).map Json.obj ∧
      n = rows.length ∧
      n = (products.filter (fun p => (pyGetNm p).isSome)).length ∧
      (∀ (p : ProductRecord) (ps : List ProductRecord), pyGetNm p = none →
        buildRows q (p :: ps) = buildRows q ps) := by
  unfold upsert_raw_items at h
  by_cases hp : products.isEmpty
  · rw [if_pos hp] at h
    have hpe : products = [] := List.isEmpty_iff.mp hp
    subst hpe
    simp only [Except.ok.injEq, Prod.mk.injEq] at h
    refine ⟨[], rfl, rfl, h.2.symm, h.2.symm, fun p ps hnm =>
      buildRows_skip q p ps hnm⟩
  · rw [if_neg hp] at h
    cases hbr : buildRows q products with
    | error e =>
      rw [hbr] at h
      exact absurd h (by simp)
    | ok rows =>
      rw [hbr] at h
      simp only [Except.ok.injEq, Prod.mk.injEq] at h
      have hmap := buildRows_payloads q products rows hbr
      have hlen : rows.length =
          (products.filter (fun p => (pyGetNm p).isSome)).length := by
        have hc := congrArg List.length hmap
        simpa using hc
      exact ⟨rows, rfl, hmap, h.2.symm, h.2.symm.trans hlen,
        fun p ps hnm => buildRows_skip q p ps hnm⟩

/-- C9: calling the Loader with an empty product list returns 0 and performs
no database operation at all: the table and the commit count are both
unchanged (the function returns before opening a cursor or committing). -/
theorem claim9_empty_batch_noop (q : ReportQuery) (db : DbState) :
    upsert_raw_items q [] db = .ok (db, 0) := rfl

/-- C10: the Loader's filter tests only that the identifier is absent or
null; a record whose `nmId` is present and non-null is kept with stored
`nm_id = int(nmId)` whenever the coercion is defined — in particular a
numeric string identifier is accepted and stored as an integer — while a
present but uncoercible identifier raises instead of being silently
skipped. -/
theorem claim10_nm_coercion :
    (∀ (q : ReportQuery) (p : ProductRecord) (ps : List ProductRecord)
        (v : Json) (nm : Int), pyGetNm p = some v → pyInt v = some nm →
      buildRows q (p :: ps) =
        (buildRows q ps).map (fun rest => (rowKey q nm, Json.obj p) :: rest)) ∧
    (∀ (q : ReportQuery) (p : ProductRecord) (ps : List ProductRecord)
        (v : Json), pyGetNm p = some v → pyInt v = none →
      ∃ e, buildRows q (p :: ps) = .error e) ∧
    (pyInt (Json.str "12345") = some 12345) ∧
    (∀ p : ProductRecord, pyGetNm p = none ↔
      (lookupField p "nmId" = none ∨
        lookupField p "nmId" = some Json.null)) := by
  refine ⟨?_, ?_, ?_, ?_⟩
  · intro q p ps v nm h1 h2
    rw [buildRows, h1]
    dsimp only
    rw [h2]
    cases hb : buildRows q ps with
    | error e => rfl
    | ok rest => rfl
  · intro q p ps v h1 h2
    refine ⟨"invalid literal for int() with base 10", ?_⟩
    rw [buildRows, h1]
    dsimp only
    rw [h2]
  · decide
  · intro p
    unfold pyGetNm
    cases h : lookupField p "nmId" with
    | none => simp
    | some v => cases v <;> simp

/-- Witness for C1: loading the one-record batch `[prod1]` twice from the
empty table leaves the same table as loading it once, with unique keys and
equal counts. -/
theorem claim1_witness :
    NoDupKeys (⟨[], 0⟩ : DbState).table ∧
    (db2c.table = db1c.table ∧ NoDupKeys db1c.table ∧ 1 = 1 ∧
      (∀ (sz : Nat) (rows : List (RowKey × Json)),
        buildRows q0 [prod1] = .ok rows →
        applyChunks (⟨[], 0⟩ : DbState).table (chunked sz rows) =
          applyRows (⟨[], 0⟩ : DbState).table rows)) :=
  ⟨List.nodup_nil,
   claim1_loader_idempotent q0 [prod1] ⟨[], 0⟩ List.nodup_nil db1c 1 db2c 1
     rfl rfl⟩

/-- Witness for C6: loading a batch of one `nmId`-less record and one
`nmId`-carrying record writes exactly the latter and returns 1. -/
theorem claim6_witness :
    ∃ rows, buildRows q0 [prodNoId, prod1] = .ok rows ∧
      rows.map Prod.snd =
        (([prodNoId, prod1]).filter
          (fun p => (pyGetNm p).isSome)).map Json.obj ∧
      1 = rows.length ∧
      1 = (([prodNoId, prod1]).filter
        (fun p => (pyGetNm p).isSome)).length ∧
      (∀ (p : ProductRecord) (ps : List ProductRecord), pyGetNm p = none →
        buildRows q0 (p :: ps) = buildRows q0 ps) :=
  claim6_missing_id_filter q0 [prodNoId, prod1] ⟨[], 0⟩ db1c 1 rfl

/-- Witness for C10: a record with the numeric string identifier "12345" is
kept and stored with `nm_id = 12345`. -/
theorem claim10_witness :
    buildRows q0 [[("nmId", Json.str "12345")]] =
      .ok [(rowKey q0 12345, Json.obj [("nmId", Json.str "12345")])] := by
  rw [claim10_nm_coercion.1 q0 [("nmId", Json.str "12345")] []
    (Json.str "12345") 12345 rfl (by decide)]
  rfl

theorem paginateLoop_ne_nil (limit : Nat) (records : List Json)
    (offset : Nat) : paginateLoop limit records offset ≠ [] := by
  rw [paginateLoop]
  split
  · simp
  · split
    · simp
    · simp

theorem paginateLoop_pages_aux (limit : Nat) (records : List Json) :
    ∀ (n offset : Nat), records.length - offset ≤ n →
      (∀ p ∈ (paginateLoop limit records offset).dropLast,
        p.length = limit ∧ p ≠ []) ∧
      (∀ q, (paginateLoop limit records offset).getLast? = some q →
        q = [] ∨ q.length < limit) := by
  intro n
  induction n with
  | zero =>
    intro offset hn
    have hdrop : records.drop offset = [] :=
      List.drop_eq_nil_of_le (by omega)
    have hP : paginateLoop limit records offset = [[]] := by
      rw [paginateLoop]
      rw [hdrop]
      simp
    rw [hP]
    constructor
    · intro p hp
      simp at hp
    · intro q hq
      simp only [List.getLast?_singleton, Option.some.injEq] at hq
      exact Or.inl hq.symm
  | succ m ih =>
    intro offset hn
    rw [paginateLoop]
    by_cases hE : ((records.drop offset).take limit).isEmpty
    · rw [if_pos hE]
      refine ⟨fun p hp => by simp at hp, fun q hq => ?_⟩
      simp only [List.getLast?_singleton, Option.some.injEq] at hq
      exact Or.inl (hq ▸ List.isEmpty_iff.mp hE)
    · rw [if_neg hE]
      by_cases hS : ((records.drop offset).take limit).length < limit
      · rw [if_pos hS]
        refine ⟨fun p hp => by simp at hp, fun q hq => ?_⟩
        simp only [List.getLast?_singleton, Option.some.injEq] at hq
        exact Or.inr (hq ▸ hS)
      · rw [if_neg hS]
        have hlen : ((records.drop offset).take limit).length =
            min limit (records.length - offset) := by
          simp [List.length_take, List.length_drop]
        have hpos : ((records.drop offset).take limit).length ≠ 0 := by
          intro h0
          exact hE (by rw [List.isEmpty_iff, ← List.length_eq_zero, h0])
        have hlim : ((records.drop offset).take limit).length = limit := by
          omega
        have hbound : records.length - (offset + limit) ≤ m := by
          rw [hlen] at hpos hS
          omega
        obtain ⟨ihd, ihl⟩ := ih (offset + limit) hbound
        constructor
        · intro p hp
          cases hrl : paginateLoop limit records (offset + limit) with
          | nil => exact absurd hrl (paginateLoop_ne_nil _ _ _)
          | cons a as =>
            rw [hrl, List.dropLast_cons₂] at hp
            rcases List.mem_cons.mp hp with rfl | hmem
            · exact ⟨hlim, fun h0 => hpos (by rw [h0]; rfl)⟩
            · exact ihd p (by rw [hrl]; exact hmem)
        · intro q hq
          cases hrl : paginateLoop limit records (offset + limit) with
          | nil => exact absurd hrl (paginateLoop_ne_nil _ _ _)
          | cons a as =>
            rw [hrl, List.getLast?_cons_cons] at hq
            exact ihl q (by rw [hrl]; exact hq)

/-- C2: the pagination loop of `main` is terminated exactly by a page that is
empty or strictly shorter than the requested limit: every fetched page except
the last is non-empty of length exactly `limit` (and is followed by another
fetch), and the last fetched page is empty or shorter than `limit`.  For a
date with 1,200 available records and `limit = 500`, exactly three fetches
are issued, with page sizes 500, 500 and 200, and no fourth request
follows. -/
theorem claim2_page_termination :
    (∀ (records : List Json) (limit offset : Nat),
      ∀ p ∈ (paginateLoop limit records offset).dropLast,
        p.length = limit ∧ p ≠ []) ∧
    (∀ (records : List Json) (limit offset : Nat) (q : List Json),
      (paginateLoop limit records offset).getLast? = some q →
      q = [] ∨ q.length < limit) ∧
    ((paginateLoop 500 (List.replicate 1200 Json.null) 0).map List.length =
      [500, 500, 200]) := by
  refine ⟨?_, ?_, ?_⟩
  · intro records limit offset
    exact (paginateLoop_pages_aux limit records records.length offset
      (by omega)).1
  · intro records limit offset
    exact (paginateLoop_pages_aux limit records records.length offset
      (by omega)).2
  · rw [paginateLoop]
    norm_num
    rw [paginateLoop]
    norm_num
    rw [paginateLoop]
    norm_num

/-- Witness for C2: in the 1,200-record scenario the last fetched page is the
200-record page, which is terminal because 200 < 500. -/
theorem claim2_witness :
    List.replicate 200 Json.null = [] ∨
      (List.replicate 200 Json.null).length < 500 := by
  apply claim2_page_termination.2.1 (List.replicate 1200 Json.null) 500 0
  rw [paginateLoop]
  norm_num
  rw [paginateLoop]
  norm_num
  rw [paginateLoop]
  norm_num

theorem safe_get_eq_getPath (obj : Json) (path : List String) (dflt : Json) :
    safe_get obj path dflt = (getPath obj path).getD dflt := by
  induction path generalizing obj with
  | nil => rfl
  | cons k rest ih =>
    cases obj with
    | obj fs =>
      simp only [safe_get, getPath]
      cases lookupField fs k with
      | none => rfl
      | some v => exact ih v
    | null => rfl
    | bool b => rfl
    | num n => rfl
    | str s => rfl
    | arr xs => rfl

/-- C7: `safe_get` is total and returns the value at the key path when every
step is a dict containing the key and the supplied default otherwise; and the
extraction of `data.products` in `fetch_page_with_retry` yields exactly the
list at that path, hence the empty list whenever the path is absent or the
value there is not a list. -/
theorem claim7_safe_get_total :
    (∀ (obj : Json) (path : List String) (dflt : Json),
      safe_get obj path dflt = (getPath obj path).getD dflt) ∧
    (∀ data : Json,
      extract_products data =
        match getPath data ["data", "products"] with
        | some (Json.arr xs) => xs
        | _ => []) := by
  refine ⟨safe_get_eq_getPath, ?_⟩
  intro data
  unfold extract_products
  rw [safe_get_eq_getPath]
  cases h : getPath data ["data", "products"] with
  | none => rfl
  | some v => cases v <;> rfl

/-- C8: the target-date list computed at run start is exactly
`[today - 1, today - 2, ..., today - N]` in that order, and the current date
itself is never included. -/
theorem claim8_target_dates (d : Int) (N : Nat) (hN : 1 ≤ N) :
    (target_dates d N).length = N ∧
    (∀ k, k < N → (target_dates d N)[k]? = some (d - (k + 1))) ∧
    d ∉ target_dates d N := by
  refine ⟨?_, ?_, ?_⟩
  · rw [target_dates, List.length_map, List.length_range']
  · intro k hk
    rw [target_dates, List.getElem?_map, List.getElem?_range' 1 1 hk]
    simp only [Option.map_some']
    congr 1
    push_cast
    ring
  · intro h
    rw [target_dates, List.mem_map] at h
    obtain ⟨i, hi, heq⟩ := h
    rw [List.mem_range'] at hi
    omega

/-- Witness for C8 at `today = 100`, `N = 2`. -/
theorem claim8_witness :
    (target_dates 100 2).length = 2 ∧ (100 : Int) ∉ target_dates 100 2 :=
  ⟨(claim8_target_dates 100 2 (by decide)).1,
   (claim8_target_dates 100 2 (by decide)).2.2⟩

end WbSync
